import Mathlib

/-
Formal verification of the learning-games backend (backend/server.js).

Two parts of the server are embedded and verified:

* the bulk ZIP import pipeline, `POST /api/admin/bulk-upload`
  (server.js lines 208-256): archive entries are scanned for files
  named `metadata.json`, each hit is JSON-parsed, the folder's files
  are materialized under the upload directory, and one Game catalog
  record is created per successfully parsed manifest;
* the leaderboard submission handler, `POST /api/games/:id/leaderboard`
  (server.js lines 174-182): push the new entry, sort descending by
  score with JavaScript's stable `Array.prototype.sort`, keep the
  first 100.

The embedding is executable: concrete archives evaluate by `rfl`.
External library behaviour is modelled as follows.  `JSON.parse` is
modelled by `jsonParse`, a parser for the JSON fragment exercised by
the backend (null / true / false, optional-minus integer numerals,
escape-free strings, arrays, objects; duplicate object keys resolve to
the last binding, as in JavaScript).  Node's `path.join` is modelled
as slash concatenation and `path.basename` / `path.dirname` by
splitting on slashes, which agrees with Node on the slash-separated
relative paths the handler builds.  JavaScript string indices are
modelled as character counts (the handler only manipulates paths, so
UTF-16 subtleties do not arise).  The filesystem is modelled by a log
of write operations together with a fault model `Config.fsFails`
saying which operations throw; `Date.now()` is modelled by
`Config.clock`, indexed by the number of manifests processed so far.
`Game.create` is modelled as appending the constructed record to
`ImportState.created`; a thrown exception is modelled by `Except.error`
carrying the state reached so far (records already created persist,
as they do in MongoDB).
-/

/-- JSON value, as produced by `JSON.parse` in the backend. -/
inductive Json where
  | null
  | bool (b : Bool)
  | num (n : Int)
  | str (s : String)
  | arr (xs : List Json)
  | obj (fields : List (String × Json))

def lbrace : Char := Char.ofNat 123

def rbrace : Char := Char.ofNat 125

def quoteCh : Char := Char.ofNat 34

def backslashCh : Char := Char.ofNat 92

def skipWs : List Char → List Char
  | [] => []
  | c :: cs =>
    if c = ' ' ∨ c = Char.ofNat 10 ∨ c = Char.ofNat 9 ∨ c = Char.ofNat 13 then skipWs cs
    else c :: cs

def parseStrAux : List Char → Option (List Char × List Char)
  | [] => none
  | c :: cs =>
    if c = quoteCh then some ([], cs)
    else if c = backslashCh then none
    else match parseStrAux cs with
      | some (acc, rest) => some (c :: acc, rest)
      | none => none

def parseDigits : List Char → (List Char × List Char)
  | [] => ([], [])
  | c :: cs =>
    if c.isDigit then
      let r := parseDigits cs
      (c :: r.1, r.2)
    else ([], c :: cs)

def digitsToNat (ds : List Char) : Nat :=
  ds.foldl (fun a c => a * 10 + (c.toNat - 48)) 0

def parseNum (cs : List Char) : Option (Json × List Char) :=
  let p := match cs with
    | '-' :: t => (true, t)
    | _ => (false, cs)
  match parseDigits p.2 with
  | ([], _) => none
  | (ds, rest) =>
    if 2 ≤ ds.length ∧ ds.headD '0' = '0' then none
    else
      let n : Int := Int.ofNat (digitsToNat ds)
      some (.num (if p.1 then -n else n), rest)

mutual

def parseVal : Nat → List Char → Option (Json × List Char)
  | 0, _ => none
  | Nat.succ fuel, cs =>
    match skipWs cs with
    | 'n' :: 'u' :: 'l' :: 'l' :: rest => some (.null, rest)
    | 't' :: 'r' :: 'u' :: 'e' :: rest => some (.bool true, rest)
    | 'f' :: 'a' :: 'l' :: 's' :: 'e' :: rest => some (.bool false, rest)
    | '[' :: rest =>
      (match skipWs rest with
        | ']' :: r2 => some (.arr [], r2)
        | r2 =>
          match parseElems fuel r2 with
          | some (xs, r) => some (.arr xs, r)
          | none => none)
    | c :: rest =>
      if c = quoteCh then
        match parseStrAux rest with
        | some (l, r) => some (.str (String.mk l), r)
        | none => none
      else if c = lbrace then
        match skipWs rest with
        | [] => none
        | d :: r2 =>
          if d = rbrace then some (.obj [], r2)
          else match parseMembers fuel (d :: r2) with
            | some (ms, r) => some (.obj ms, r)
            | none => none
      else parseNum (c :: rest)
    | [] => none

def parseElems : Nat → List Char → Option (List Json × List Char)
  | 0, _ => none
  | Nat.succ fuel, cs =>
    match parseVal fuel cs with
    | none => none
    | some (v, rest) =>
      match skipWs rest with
      | ',' :: r2 =>
        (match parseElems fuel r2 with
          | some (xs, r) => some (v :: xs, r)
          | none => none)
      | ']' :: r2 => some ([v], r2)
      | _ => none

def parseMembers : Nat → List Char → Option (List (String × Json) × List Char)
  | 0, _ => none
  | Nat.succ fuel, cs =>
    match skipWs cs with
    | c :: r1 =>
      if c = quoteCh then
        match parseStrAux r1 with
        | none => none
        | some (k, r2) =>
          match skipWs r2 with
          | ':' :: r3 =>
            (match parseVal fuel r3 with
              | none => none
              | some (v, r4) =>
                match skipWs r4 with
                | ',' :: r5 =>
                  (match parseMembers fuel r5 with
                    | some (ms, r) => some ((String.mk k, v) :: ms, r)
                    | none => none)
                | d :: r5 =>
                  if d = rbrace then some ([(String.mk k, v)], r5) else none
                | [] => none)
          | _ => none
      else none
    | [] => none

end

-- Model of `JSON.parse`: parse one value, then require only trailing
-- whitespace.  Returns `none` where `JSON.parse` would throw.
def jsonParse (s : String) : Option Json :=
  match parseVal (s.toList.length + 1) s.toList with
  | some (v, rest) => if skipWs rest = [] then some v else none
  | none => none

def splitCharList (sep : Char) : List Char → List (List Char)
  | [] => [[]]
  | c :: cs =>
    let r := splitCharList sep cs
    if c = sep then [] :: r
    else match r with
      | [] => [[c]]
      | g :: gs => (c :: g) :: gs

def splitSlash (s : String) : List String :=
  (splitCharList '/' s.toList).map String.mk

def joinSlash (ps : List String) : String :=
  String.intercalate "/" ps

def joinPath (a b : String) : String := a ++ "/" ++ b

def basename (p : String) : String := (splitSlash p).getLastD ""

def dirname (p : String) : String :=
  let ps := splitSlash p
  if ps.length ≤ 1 then "." else joinSlash ps.dropLast

def strStartsWith (s pre : String) : Bool :=
  pre.toList.isPrefixOf s.toList

def strDropChars (s : String) (n : Nat) : String := String.mk (s.toList.drop n)

def strLen (s : String) : Nat := s.toList.length

structure ZipEntry where
  entryName : String
  isDirectory : Bool
  content : String
deriving DecidableEq, Repr

inductive WriteOp where
  | mkdir (path : String)
  | writeFile (path : String) (content : String)
  | rename (src : String) (dst : String)
  | unlink (path : String)
deriving DecidableEq, Repr

def WriteOp.isStorage : WriteOp → Bool
  | .unlink _ => false
  | _ => true

structure Game where
  title : Json
  description : Json
  category : Json
  tags : Json
  filePath : String
  lessonTitle : Json
  lessonContent : Json
  quizzes : Json

structure ImportState where
  created : List Game
  writes : List WriteOp
  count : Nat

def initState : ImportState := { created := [], writes := [], count := 0 }

structure Config where
  uploadDir : String
  tmpPath : String
  clock : Nat → Nat
  fsFails : WriteOp → Bool

inductive Response where
  | ok (created : Nat) (items : List Game)
  | err (status : Nat) (msg : String)

def lookupLast : List (String × Json) → String → Option Json
  | [], _ => none
  | (k', v) :: rest, k =>
    match lookupLast rest k with
    | some r => some r
    | none => if k' = k then some v else none

def jsField (meta : Json) (k : String) : Option Json :=
  match meta with
  | .obj fs => lookupLast fs k
  | _ => none

def jsTruthy : Json → Bool
  | .null => false
  | .bool b => b
  | .num n => n != 0
  | .str s => s != ""
  | .arr _ => true
  | .obj _ => true

def jsOrDefault (v : Option Json) (d : Json) : Json :=
  match v with
  | some j => if jsTruthy j then j else d
  | none => d

def isNullJson : Json → Bool
  | .null => true
  | _ => false

-- server.js 242-246: the `Game.create` argument; `x || d` picks `d`
-- when the field is missing or falsy (the `jsTruthy` model).
def mkRecord (meta : Json) (url : String) : Game :=
  { title := jsOrDefault (jsField meta "title") (.str "Untitled")
    description := jsOrDefault (jsField meta "description") (.str "")
    category := jsOrDefault (jsField meta "category") (.str "")
    tags := jsOrDefault (jsField meta "tags") (.arr [])
    filePath := url
    lessonTitle := jsOrDefault (jsField meta "lessonTitle") (.str "")
    lessonContent := jsOrDefault (jsField meta "lessonContent") (.str "")
    quizzes := jsOrDefault (jsField meta "quizzes") (.arr []) }

-- One filesystem call: either it throws (per the fault model `fsFails`),
-- or it is appended to the log of performed writes.
def doOp (cfg : Config) (st : ImportState) (op : WriteOp) : Except ImportState ImportState :=
  if cfg.fsFails op then .error st
  else .ok { st with writes := st.writes ++ [op] }

def copyFiles (cfg : Config) (target folder : String) :
    List ZipEntry → ImportState → Except ImportState ImportState
  | [], st => .ok st
  | en :: rest, st =>
    if en.isDirectory then copyFiles cfg target folder rest st
    else
      let rel := strDropChars en.entryName (strLen folder + 1)
      let outPath := joinPath target rel
      match doOp cfg st (.mkdir (dirname outPath)) with
      | .error s => .error s
      | .ok st1 =>
        match doOp cfg st1 (.writeFile outPath en.content) with
        | .error s => .error s
        | .ok st2 => copyFiles cfg target folder rest st2

-- server.js 225-247: `targetFolder = path.join(uploadDir, folder + '_' + Date.now())`;
-- `mkdirSync(targetFolder)`; copy every entry whose name starts with `folder + '/'`;
-- `serveUrl`; `destDir = path.join(uploadDir, path.basename(targetFolder))`;
-- `renameSync(targetFolder, destDir)`; `Game.create({...})` — reading
-- `meta.title` etc. throws exactly when the parsed JSON value is `null`
-- (property access on any other JSON value yields undefined, not a throw).
-- The unused `readdirSync` at line 235 has no observable effect and is omitted.
def processManifest (cfg : Config) (all : List ZipEntry) (st : ImportState)
    (folder : String) (meta : Json) : Except ImportState ImportState :=
  let target := joinPath cfg.uploadDir (folder ++ "_" ++ toString (cfg.clock st.count))
  match doOp cfg st (.mkdir target) with
  | .error s => .error s
  | .ok st1 =>
    match copyFiles cfg target folder
        (all.filter (fun en => strStartsWith en.entryName (folder ++ "/"))) st1 with
    | .error s => .error s
    | .ok st2 =>
      let url := "/games/files/" ++ basename target ++ "/index.html"
      let destDir := joinPath cfg.uploadDir (basename target)
      match doOp cfg st2 (.rename target destDir) with
      | .error s => .error s
      | .ok st3 =>
        if isNullJson meta then .error st3
        else .ok { st3 with created := st3.created ++ [mkRecord meta url],
                            count := st3.count + 1 }

-- server.js 216-220: skip directories; `parts = entry.entryName.split('/')`;
-- a candidate needs `parts.length >= 2` and last part `metadata.json`;
-- the folder identifier is `parts.slice(0, -1).join('/')`.
def candidateFolder (e : ZipEntry) : Option String :=
  if e.isDirectory then none
  else
    let parts := splitSlash e.entryName
    if 2 ≤ parts.length ∧ parts.getLastD "" = "metadata.json" then
      some (joinSlash parts.dropLast)
    else none

-- The folder/manifest pair an entry contributes, if any: candidate name
-- shape plus successful JSON parse (server.js 216-223 condensed).
def scanEntry (e : ZipEntry) : Option (String × Json) :=
  match candidateFolder e with
  | none => none
  | some f =>
    match jsonParse e.content with
    | none => none
    | some m => some (f, m)

def manifestScan (entries : List ZipEntry) : List (String × Json) :=
  entries.filterMap scanEntry

-- server.js 216-248: one iteration of `for (const entry of entries)`;
-- a JSON.parse failure hits `catch(e){ continue; }` (line 223).
def processEntry (cfg : Config) (all : List ZipEntry) (st : ImportState) (e : ZipEntry) :
    Except ImportState ImportState :=
  match candidateFolder e with
  | none => .ok st
  | some folder =>
    match jsonParse e.content with
    | none => .ok st
    | some meta => processManifest cfg all st folder meta

-- server.js 216-249: the manifest loop; the first thrown exception
-- propagates out of the loop to the handler's catch block.
def runEntries (cfg : Config) (all : List ZipEntry) :
    List ZipEntry → ImportState → ImportState × Bool
  | [], st => (st, false)
  | e :: rest, st =>
    match processEntry cfg all st e with
    | .ok st' => runEntries cfg all rest st'
    | .error st' => (st', true)

-- server.js 211-255: the whole try/catch.  `archive = none` models
-- `new AdmZip(...)` throwing (corrupt archive).  On loop success the
-- handler unlinks the uploaded temp file and answers
-- `{ created: created.length, items: created.slice(0, 20) }`; any thrown
-- exception is answered with status 500 `Failed processing zip`, and the
-- temp file is not unlinked on that path.
def bulkUpload (cfg : Config) (archive : Option (List ZipEntry)) : ImportState × Response :=
  match archive with
  | none => (initState, .err 500 "Failed processing zip")
  | some entries =>
    match runEntries cfg entries entries initState with
    | (st, true) => (st, .err 500 "Failed processing zip")
    | (st, false) =>
      match doOp cfg st (.unlink cfg.tmpPath) with
      | .error st' => (st', .err 500 "Failed processing zip")
      | .ok st' => (st', .ok st'.created.length (st'.created.take 20))

def targetAt (cfg : Config) (folder : String) (k : Nat) : String :=
  joinPath cfg.uploadDir (folder ++ "_" ++ toString (cfg.clock k))

def serveUrlAt (cfg : Config) (folder : String) (k : Nat) : String :=
  "/games/files/" ++ basename (targetAt cfg folder k) ++ "/index.html"

-- The records a failure-free import creates for the scanned manifests,
-- starting at clock index k — used to state the characterization lemmas.
def expectedFrom (cfg : Config) : Nat → List (String × Json) → List Game
  | _, [] => []
  | k, (f, m) :: rest => mkRecord m (serveUrlAt cfg f k) :: expectedFrom cfg (k + 1) rest

def stateOf : Except ImportState ImportState → ImportState
  | .ok s => s
  | .error s => s

structure LBEntry where
  userId : String
  name : String
  score : Int
  createdAt : Nat
deriving DecidableEq, Repr

-- Stable descending insertion: `x` goes before the first element whose
-- score is ≤ its own, so earlier-pushed equal scores stay first.
def insertDesc (x : LBEntry) : List LBEntry → List LBEntry
  | [] => [x]
  | y :: ys => if y.score ≤ x.score then x :: y :: ys else y :: insertDesc x ys

def sortDesc : List LBEntry → List LBEntry
  | [] => []
  | x :: xs => insertDesc x (sortDesc xs)

-- server.js 178-179: `g.leaderboard.push(entry)` then
-- `g.leaderboard.sort((a,b) => b.score - a.score).slice(0,100)`;
-- `Array.prototype.sort` is stable, modelled by `sortDesc`.
def submitScore (lb : List LBEntry) (e : LBEntry) : List LBEntry :=
  (sortDesc (lb ++ [e])).take 100

def scoreGe (a b : LBEntry) : Prop := b.score ≤ a.score

def cfgC1 : Config :=
  { uploadDir := "uploads", tmpPath := "tmp.zip", clock := fun _ => 7,
    fsFails := fun op => match op with
      | .mkdir p => p == "uploads/b_7"
      | _ => false }

def entryA : ZipEntry := ⟨"a/metadata.json", false, "\x7b\x7d"⟩

def entryB : ZipEntry := ⟨"b/metadata.json", false, "\x7b\x7d"⟩

def stC1a : ImportState := (runEntries cfgC1 [entryA, entryB] [entryA] initState).1

def cfgT2 : Config :=
  { uploadDir := "uploads", tmpPath := "tmp.zip", clock := fun _ => 7, fsFails := fun _ => false }

def archC10 : List ZipEntry :=
  [⟨"good/metadata.json", false, "\x7b\"title\":\"G\"\x7d"⟩,
   ⟨"bad/metadata.json", false, "null"⟩]

-- Sanity checks: the JSON parser model on concrete inputs.
example : jsonParse "null" = some Json.null := by rfl

example : jsonParse "\x7b\x7d" = some (Json.obj []) := by rfl

example : jsonParse "\x7b\"title\":\"Add\"\x7d" = some (Json.obj [("title", Json.str "Add")]) := by rfl

example : jsonParse "\x7b\"a\":[1,2],\"b\":true\x7d" =
    some (Json.obj [("a", Json.arr [Json.num 1, Json.num 2]), ("b", Json.bool true)]) := by rfl

example : jsonParse "\x7b" = none := by rfl

example : jsonParse "not json" = none := by rfl

example : jsonParse " -12 " = some (Json.num (-12)) := by rfl

lemma mem_insertDesc {x a : LBEntry} {l : List LBEntry} :
    a ∈ insertDesc x l ↔ a = x ∨ a ∈ l := by
  induction l with
  | nil => simp [insertDesc]
  | cons y ys ih =>
    by_cases h : y.score ≤ x.score
    · simp [insertDesc, h]
    · simp [insertDesc, h, ih]
      tauto

lemma pairwise_insertDesc {x : LBEntry} {l : List LBEntry}
    (h : l.Pairwise scoreGe) : (insertDesc x l).Pairwise scoreGe := by
  induction l with
  | nil => simp [insertDesc, List.pairwise_singleton]
  | cons y ys ih =>
    rcases List.pairwise_cons.mp h with ⟨hy, hys⟩
    by_cases hle : y.score ≤ x.score
    · simp only [insertDesc, if_pos hle]
      refine List.pairwise_cons.mpr ⟨?_, h⟩
      intro b hb
      rcases List.mem_cons.mp hb with rfl | hb
      · exact hle
      · exact le_trans (hy b hb) hle
    · simp only [insertDesc, if_neg hle]
      refine List.pairwise_cons.mpr ⟨?_, ih hys⟩
      intro b hb
      rcases mem_insertDesc.mp hb with rfl | hb
      · exact le_of_not_le hle
      · exact hy b hb

lemma pairwise_sortDesc (l : List LBEntry) : (sortDesc l).Pairwise scoreGe := by
  induction l with
  | nil => simp [sortDesc]
  | cons x xs ih => exact pairwise_insertDesc ih

lemma length_insertDesc (x : LBEntry) (l : List LBEntry) :
    (insertDesc x l).length = l.length + 1 := by
  induction l with
  | nil => simp [insertDesc]
  | cons y ys ih =>
    by_cases h : y.score ≤ x.score
    · simp [insertDesc, h]
    · simp [insertDesc, h, ih]

lemma filter_insertDesc (x : LBEntry) (l : List LBEntry) (s : Int) :
    (insertDesc x l).filter (fun y => y.score == s) =
      if x.score == s then x :: l.filter (fun y => y.score == s)
      else l.filter (fun y => y.score == s) := by
  induction l with
  | nil =>
    by_cases h : x.score = s
    · have hb : (x.score == s) = true := by simp [h]
      simp [insertDesc, List.filter_cons, hb]
    · have hb : (x.score == s) = false := by simp [h]
      simp [insertDesc, List.filter_cons, hb]
  | cons y ys ih =>
    by_cases hle : y.score ≤ x.score
    · simp only [insertDesc]
      rw [if_pos hle]
      by_cases h : x.score = s
      · have hb : (x.score == s) = true := by simp [h]
        simp [List.filter_cons, hb]
      · have hb : (x.score == s) = false := by simp [h]
        simp [List.filter_cons, hb]
    · simp only [insertDesc]
      rw [if_neg hle]
      have hlt : x.score < y.score := lt_of_not_le hle
      by_cases h : x.score = s
      · have hb : (x.score == s) = true := by simp [h]
        have hyne : (y.score == s) = false := by
          have : ¬ (y.score = s) := by omega
          simp [this]
        simp [List.filter_cons, hyne, hb, ih]
      · have hb : (x.score == s) = false := by simp [h]
        by_cases hy : y.score = s
        · have hyb : (y.score == s) = true := by simp [hy]
          simp [List.filter_cons, hb, hyb, ih]
        · have hyb : (y.score == s) = false := by simp [hy]
          simp [List.filter_cons, hb, hyb, ih]

lemma filter_sortDesc (l : List LBEntry) (s : Int) :
    (sortDesc l).filter (fun y => y.score == s) = l.filter (fun y => y.score == s) := by
  induction l with
  | nil => rfl
  | cons x xs ih =>
    simp only [sortDesc]
    rw [filter_insertDesc]
    by_cases h : x.score = s
    · have hb : (x.score == s) = true := by simp [h]
      simp [List.filter_cons, hb, ih]
    · have hb : (x.score == s) = false := by simp [h]
      simp [List.filter_cons, hb, ih]

lemma filter_take_isTakeOf {α : Type} (l : List α) (n : Nat) (p : α → Bool) :
    ∃ m, (l.take n).filter p = (l.filter p).take m := by
  refine ⟨((l.take n).filter p).length, ?_⟩
  calc (l.take n).filter p
      = ((l.take n).filter p ++ (l.drop n).filter p).take ((l.take n).filter p).length := by
        rw [List.take_left]
    _ = (l.filter p).take ((l.take n).filter p).length := by
        rw [← List.filter_append, List.take_append_drop]

lemma length_sortDesc (l : List LBEntry) : (sortDesc l).length = l.length := by
  induction l with
  | nil => rfl
  | cons x xs ih => simp [sortDesc, length_insertDesc, ih]

lemma doOp_ok (cfg : Config) (st : ImportState) (op : WriteOp) (h : cfg.fsFails op = false) :
    doOp cfg st op = .ok { st with writes := st.writes ++ [op] } := by
  simp [doOp, h]

lemma doOp_error_inv {cfg : Config} {st s : ImportState} {op : WriteOp}
    (h : doOp cfg st op = .error s) : s = st := by
  unfold doOp at h
  split at h
  · exact (Except.error.injEq _ _).mp h |>.symm
  · exact absurd h (by simp)

lemma doOp_ok_inv {cfg : Config} {st s : ImportState} {op : WriteOp}
    (h : doOp cfg st op = .ok s) : s = { st with writes := st.writes ++ [op] } := by
  unfold doOp at h
  split at h
  · exact absurd h (by simp)
  · exact ((Except.ok.injEq _ _).mp h).symm

lemma copyFiles_ok (cfg : Config) (target folder : String)
    (hf : ∀ op, cfg.fsFails op = false) :
    ∀ (files : List ZipEntry) (st : ImportState),
      ∃ w, copyFiles cfg target folder files st = .ok { st with writes := st.writes ++ w } := by
  intro files
  induction files with
  | nil =>
    intro st
    exact ⟨[], by simp [copyFiles]⟩
  | cons en rest ih =>
    intro st
    by_cases hd : en.isDirectory
    · obtain ⟨w, hw⟩ := ih st
      exact ⟨w, by simp [copyFiles, hd, hw]⟩
    · have hdo : ∀ (s : ImportState) (op : WriteOp),
          doOp cfg s op = .ok { s with writes := s.writes ++ [op] } :=
        fun s op => doOp_ok cfg s op (hf op)
      simp only [copyFiles, hd, Bool.false_eq_true, ite_false, hdo]
      obtain ⟨w, hw⟩ := ih { st with writes := st.writes ++
          [WriteOp.mkdir (dirname (joinPath target (strDropChars en.entryName (strLen folder + 1))))] ++
          [WriteOp.writeFile (joinPath target (strDropChars en.entryName (strLen folder + 1))) en.content] }
      refine ⟨WriteOp.mkdir (dirname (joinPath target (strDropChars en.entryName (strLen folder + 1)))) ::
        WriteOp.writeFile (joinPath target (strDropChars en.entryName (strLen folder + 1))) en.content :: w, ?_⟩
      rw [hw]
      simp [List.append_assoc]

lemma copyFiles_error (cfg : Config) (target folder : String) :
    ∀ (files : List ZipEntry) (st s : ImportState),
      copyFiles cfg target folder files st = .error s →
      s.created = st.created ∧ s.count = st.count := by
  intro files
  induction files with
  | nil => intro st s h; simp [copyFiles] at h
  | cons en rest ih =>
    intro st s h
    by_cases hd : en.isDirectory
    · simp only [copyFiles, hd, ite_true] at h
      exact ih st s h
    · simp only [copyFiles, hd, Bool.false_eq_true, ite_false] at h
      cases h1 : doOp cfg st (.mkdir (dirname (joinPath target (strDropChars en.entryName (strLen folder + 1))))) with
      | error s1 =>
        rw [h1] at h
        simp at h
        rw [← h, doOp_error_inv h1]
        exact ⟨rfl, rfl⟩
      | ok st1 =>
        rw [h1] at h
        simp only at h
        have hst1 := doOp_ok_inv h1
        cases h2 : doOp cfg st1 (.writeFile (joinPath target (strDropChars en.entryName (strLen folder + 1))) en.content) with
        | error s2 =>
          rw [h2] at h
          simp at h
          rw [← h, doOp_error_inv h2, hst1]
          exact ⟨rfl, rfl⟩
        | ok st2 =>
          rw [h2] at h
          simp only at h
          have hst2 := doOp_ok_inv h2
          have := ih st2 s h
          rw [hst2, hst1] at this
          exact this

lemma copyFiles_preserves (cfg : Config) (target folder : String) :
    ∀ (files : List ZipEntry) (st : ImportState),
      (stateOf (copyFiles cfg target folder files st)).created = st.created ∧
      (stateOf (copyFiles cfg target folder files st)).count = st.count := by
  intro files
  induction files with
  | nil => intro st; exact ⟨rfl, rfl⟩
  | cons en rest ih =>
    intro st
    by_cases hd : en.isDirectory
    · simpa [copyFiles, hd] using ih st
    · simp only [copyFiles, hd, Bool.false_eq_true, ite_false]
      split
      case _ s1 h1 =>
        simp only [stateOf]
        rw [doOp_error_inv h1]
        exact ⟨rfl, rfl⟩
      case _ st1 h1 =>
        split
        case _ s2 h2 =>
          simp only [stateOf]
          rw [doOp_error_inv h2, doOp_ok_inv h1]
          exact ⟨rfl, rfl⟩
        case _ st2 h2 =>
          obtain ⟨ha, hb⟩ := ih st2
          constructor
          · rw [ha, doOp_ok_inv h2, doOp_ok_inv h1]
          · rw [hb, doOp_ok_inv h2, doOp_ok_inv h1]

lemma except_ok_inv {a b : ImportState} (h : Except.ok (ε := ImportState) a = Except.ok b) : a = b := by
  cases h; rfl

lemma processManifest_ok (cfg : Config) (all : List ZipEntry) (st : ImportState)
    (folder : String) (meta : Json)
    (hf : ∀ op, cfg.fsFails op = false) (hm : isNullJson meta = false) :
    ∃ wc, processManifest cfg all st folder meta = .ok
      { created := st.created ++ [mkRecord meta (serveUrlAt cfg folder st.count)],
        writes := st.writes ++ (WriteOp.mkdir (targetAt cfg folder st.count) ::
          (wc ++ [WriteOp.rename (targetAt cfg folder st.count)
            (joinPath cfg.uploadDir (basename (targetAt cfg folder st.count)))])),
        count := st.count + 1 } := by
  have hdo : ∀ (s : ImportState) (op : WriteOp),
      doOp cfg s op = .ok { s with writes := s.writes ++ [op] } :=
    fun s op => doOp_ok cfg s op (hf op)
  obtain ⟨wc, hwc⟩ := copyFiles_ok cfg (targetAt cfg folder st.count) folder hf
    (all.filter (fun en => strStartsWith en.entryName (folder ++ "/")))
    { st with writes := st.writes ++ [WriteOp.mkdir (targetAt cfg folder st.count)] }
  refine ⟨wc, ?_⟩
  simp only [processManifest, hdo]
  rw [show joinPath cfg.uploadDir (folder ++ "_" ++ toString (cfg.clock st.count)) =
    targetAt cfg folder st.count from rfl]
  rw [hwc]
  simp only [hdo, hm, Bool.false_eq_true, ite_false]
  simp [serveUrlAt, List.append_assoc]

lemma processManifest_error (cfg : Config) (all : List ZipEntry) (st s : ImportState)
    (folder : String) (meta : Json)
    (h : processManifest cfg all st folder meta = .error s) :
    s.created = st.created ∧ s.count = st.count := by
  simp only [processManifest] at h
  cases h1 : doOp cfg st (.mkdir (joinPath cfg.uploadDir (folder ++ "_" ++ toString (cfg.clock st.count)))) with
  | error s1 =>
    rw [h1] at h
    simp only [Except.error.injEq] at h
    rw [← h, doOp_error_inv h1]
    exact ⟨rfl, rfl⟩
  | ok st1 =>
    rw [h1] at h
    simp only at h
    have hst1 := doOp_ok_inv h1
    have hcp := copyFiles_preserves cfg (joinPath cfg.uploadDir (folder ++ "_" ++ toString (cfg.clock st.count))) folder
      (all.filter (fun en => strStartsWith en.entryName (folder ++ "/"))) st1
    cases h2 : copyFiles cfg (joinPath cfg.uploadDir (folder ++ "_" ++ toString (cfg.clock st.count))) folder
        (all.filter (fun en => strStartsWith en.entryName (folder ++ "/"))) st1 with
    | error s2 =>
      rw [h2] at h
      simp only [Except.error.injEq] at h
      rw [h2] at hcp
      simp only [stateOf] at hcp
      rw [← h]
      rw [hst1] at hcp
      exact hcp
    | ok st2 =>
      rw [h2] at h
      simp only at h
      rw [h2] at hcp
      simp only [stateOf] at hcp
      rw [hst1] at hcp
      cases h3 : doOp cfg st2 (.rename (joinPath cfg.uploadDir (folder ++ "_" ++ toString (cfg.clock st.count)))
          (joinPath cfg.uploadDir (basename (joinPath cfg.uploadDir (folder ++ "_" ++ toString (cfg.clock st.count)))))) with
      | error s3 =>
        rw [h3] at h
        simp only [Except.error.injEq] at h
        rw [← h, doOp_error_inv h3]
        exact hcp
      | ok st3 =>
        rw [h3] at h
        simp only at h
        have hst3 := doOp_ok_inv h3
        by_cases hn : isNullJson meta
        · rw [if_pos hn] at h
          simp only [Except.error.injEq] at h
          rw [← h, hst3]
          exact hcp
        · rw [if_neg hn] at h
          exact absurd h (by simp)

lemma processEntry_noScan (cfg : Config) (all : List ZipEntry) (st : ImportState) (e : ZipEntry)
    (h : scanEntry e = none) : processEntry cfg all st e = .ok st := by
  unfold processEntry
  split
  · rfl
  case _ f hc =>
    split
    · rfl
    case _ m hp =>
      exfalso
      unfold scanEntry at h
      rw [hc] at h
      simp only at h
      rw [hp] at h
      simp at h

lemma processEntry_scan (cfg : Config) (all : List ZipEntry) (st : ImportState) (e : ZipEntry)
    (f : String) (m : Json) (h : scanEntry e = some (f, m)) :
    processEntry cfg all st e = processManifest cfg all st f m := by
  unfold processEntry
  split
  case _ hc =>
    exfalso
    unfold scanEntry at h
    rw [hc] at h
    simp at h
  case _ f' hc =>
    split
    case _ hp =>
      exfalso
      unfold scanEntry at h
      rw [hc] at h
      simp only at h
      rw [hp] at h
      simp at h
    case _ m' hp =>
      unfold scanEntry at h
      rw [hc] at h
      simp only at h
      rw [hp] at h
      simp only [Option.some.injEq, Prod.mk.injEq] at h
      rw [h.1, h.2]

lemma processEntry_error (cfg : Config) (all : List ZipEntry) (st s : ImportState) (e : ZipEntry)
    (h : processEntry cfg all st e = .error s) :
    s.created = st.created ∧ s.count = st.count := by
  unfold processEntry at h
  split at h
  · exact absurd h (by simp)
  split at h
  · exact absurd h (by simp)
  exact processManifest_error cfg all st s _ _ h

lemma runEntries_append (cfg : Config) (all : List ZipEntry) :
    ∀ (l1 l2 : List ZipEntry) (st : ImportState),
      runEntries cfg all (l1 ++ l2) st =
        (if (runEntries cfg all l1 st).2 then runEntries cfg all l1 st
         else runEntries cfg all l2 (runEntries cfg all l1 st).1) := by
  intro l1
  induction l1 with
  | nil => intro l2 st; simp [runEntries]
  | cons e rest ih =>
    intro l2 st
    simp only [List.cons_append, runEntries]
    cases hp : processEntry cfg all st e with
    | ok st' => exact ih l2 st'
    | error st' => simp [runEntries]

lemma runEntries_empty_scan (cfg : Config) (all : List ZipEntry) :
    ∀ (l : List ZipEntry) (st : ImportState),
      l.filterMap scanEntry = [] → runEntries cfg all l st = (st, false) := by
  intro l
  induction l with
  | nil => intro st _; rfl
  | cons e rest ih =>
    intro st h
    rw [List.filterMap_cons] at h
    cases hs : scanEntry e with
    | some p => rw [hs] at h; simp at h
    | none =>
      rw [hs] at h
      simp only at h
      simp only [runEntries, processEntry_noScan cfg all st e hs]
      exact ih st h

lemma runEntries_ok (cfg : Config) (all : List ZipEntry)
    (hf : ∀ op, cfg.fsFails op = false) :
    ∀ (l : List ZipEntry) (st : ImportState),
      (∀ p ∈ l.filterMap scanEntry, isNullJson p.2 = false) →
      ∃ w, runEntries cfg all l st =
        ({ created := st.created ++ expectedFrom cfg st.count (l.filterMap scanEntry),
           writes := st.writes ++ w,
           count := st.count + (l.filterMap scanEntry).length }, false) := by
  intro l
  induction l with
  | nil =>
    intro st _
    exact ⟨[], by simp [runEntries, expectedFrom]⟩
  | cons e rest ih =>
    intro st h
    rw [List.filterMap_cons]
    cases hs : scanEntry e with
    | none =>
      rw [List.filterMap_cons, hs] at h
      simp only at h
      obtain ⟨w, hw⟩ := ih st h
      exact ⟨w, by simp only [runEntries, processEntry_noScan cfg all st e hs]; exact hw⟩
    | some p =>
      obtain ⟨f, m⟩ := p
      rw [List.filterMap_cons, hs] at h
      simp only [List.mem_cons] at h
      have hm : isNullJson m = false := h (f, m) (Or.inl rfl)
      have hrest : ∀ p ∈ rest.filterMap scanEntry, isNullJson p.2 = false :=
        fun p hp => h p (Or.inr hp)
      obtain ⟨wm, hwm⟩ := processManifest_ok cfg all st f m hf hm
      set st' : ImportState :=
        { created := st.created ++ [mkRecord m (serveUrlAt cfg f st.count)],
          writes := st.writes ++ (WriteOp.mkdir (targetAt cfg f st.count) ::
            (wm ++ [WriteOp.rename (targetAt cfg f st.count)
              (joinPath cfg.uploadDir (basename (targetAt cfg f st.count)))])),
          count := st.count + 1 } with hst'
      obtain ⟨w2, hw2⟩ := ih st' hrest
      refine ⟨(WriteOp.mkdir (targetAt cfg f st.count) ::
        (wm ++ [WriteOp.rename (targetAt cfg f st.count)
          (joinPath cfg.uploadDir (basename (targetAt cfg f st.count)))])) ++ w2, ?_⟩
      simp only [runEntries, processEntry_scan cfg all st e f m hs, hwm]
      rw [hw2]
      simp only [hst', Prod.mk.injEq, ImportState.mk.injEq]
      refine ⟨⟨?_, ?_, ?_⟩, trivial⟩
      · simp [expectedFrom, List.append_assoc]
      · simp [List.append_assoc]
      · simp only [List.length_cons]
        omega

lemma bulkUpload_char (cfg : Config) (entries : List ZipEntry)
    (hf : ∀ op, cfg.fsFails op = false)
    (hnn : (manifestScan entries).all (fun p => !isNullJson p.2) = true) :
    (bulkUpload cfg (some entries)).1.created = expectedFrom cfg 0 (manifestScan entries) ∧
    (bulkUpload cfg (some entries)).2 =
      Response.ok (expectedFrom cfg 0 (manifestScan entries)).length
        ((expectedFrom cfg 0 (manifestScan entries)).take 20) := by
  have hnn' : ∀ p ∈ manifestScan entries, isNullJson p.2 = false := by
    intro p hp
    have := List.all_eq_true.mp hnn p hp
    simpa using this
  obtain ⟨w, hw⟩ := runEntries_ok cfg entries hf entries initState hnn'
  have hinit : initState.created = [] := rfl
  simp only [bulkUpload]
  rw [show entries.filterMap scanEntry = manifestScan entries from rfl] at hw
  rw [hw]
  simp only [doOp_ok cfg _ _ (hf _)]
  simp [initState]

/-- Claim C1, counterexample: with a filesystem that fails the `mkdir` for
folder `b`, importing an archive with valid folders `a` and `b` returns the
generic 500 error response, not a success response covering folder `a`
(whose record was already created before the failure). -/
theorem c1_counterexample :
    (bulkUpload cfgC1 (some [entryA, entryB])).2 = Response.err 500 "Failed processing zip" ∧
    (bulkUpload cfgC1 (some [entryA, entryB])).1.created.length = 1 ∧
    jsonParse entryB.content = some (Json.obj []) := by
  exact ⟨rfl, rfl, rfl⟩

/-- Claim C1 (corrected): there is no per-folder error handling in the loop,
so an I/O error while materializing one folder aborts the whole import: the
first failing entry stops the loop, later manifests are never processed, and
the response is the generic error; catalog records created for earlier
folders remain persisted, and the failing folder adds no record. -/
theorem c1_amended (cfg : Config) (pre post : List ZipEntry) (e : ZipEntry) (st1 st2 : ImportState)
    (hpre : runEntries cfg (pre ++ e :: post) pre initState = (st1, false))
    (he : processEntry cfg (pre ++ e :: post) st1 e = .error st2) :
    bulkUpload cfg (some (pre ++ e :: post)) = (st2, Response.err 500 "Failed processing zip") ∧
    st2.created = st1.created := by
  constructor
  · simp only [bulkUpload]
    rw [runEntries_append cfg (pre ++ e :: post) pre (e :: post) initState, hpre]
    simp only [runEntries, he]
    simp
  · exact (processEntry_error cfg (pre ++ e :: post) st1 st2 e he).1

/-- Claim C1, witness: the corrected statement instantiated on a concrete
two-folder archive where the second folder's `mkdir` throws. -/
theorem c1_witness :
    bulkUpload cfgC1 (some ([entryA] ++ entryB :: [])) =
      (stC1a, Response.err 500 "Failed processing zip") ∧ stC1a.created = stC1a.created :=
  c1_amended cfgC1 [entryA] [] entryB stC1a stC1a (by rfl) (by rfl)

/-- Claim C2, counterexample: importing `mathgame/metadata.json` with stamp 7
produces a record whose public path is `/games/files/mathgame_7/index.html`
(the `_7` suffix is kept), and the recorded rename maps `uploads/mathgame_7`
to itself, never to `uploads/mathgame`. -/
theorem c2_counterexample :
    ((bulkUpload cfgT2 (some [⟨"mathgame/metadata.json", false, "\x7b\x7d"⟩])).1.created.map
        Game.filePath = ["/games/files/mathgame_7/index.html"]) ∧
    ((bulkUpload cfgT2 (some [⟨"mathgame/metadata.json", false, "\x7b\x7d"⟩])).1.writes =
      [WriteOp.mkdir "uploads/mathgame_7", WriteOp.mkdir "uploads/mathgame_7",
       WriteOp.writeFile "uploads/mathgame_7/metadata.json" "\x7b\x7d",
       WriteOp.rename "uploads/mathgame_7" "uploads/mathgame_7",
       WriteOp.unlink "tmp.zip"]) ∧
    ("/games/files/mathgame_7/index.html" ≠ "/games/files/mathgame/index.html") := by
  refine ⟨rfl, rfl, ?_⟩
  decide

/-- Claim C2 (corrected): after a folder's files are written under
`uploadDir/<folder>_<stamp>`, the destination is renamed to
`uploadDir/basename(<folder>_<stamp>)` — the stamp suffix is not removed —
and the created record's public reference is
`/games/files/basename(<folder>_<stamp>)/index.html`, which retains the
suffix; the finalized name never equals the bare folder identifier. -/
theorem c2_amended (cfg : Config) (all : List ZipEntry) (st : ImportState)
    (folder : String) (meta : Json)
    (hf : ∀ op, cfg.fsFails op = false) (hm : isNullJson meta = false) :
    ∃ wc st', processManifest cfg all st folder meta = .ok st' ∧
      st'.writes = st.writes ++ (WriteOp.mkdir (targetAt cfg folder st.count) ::
        (wc ++ [WriteOp.rename (targetAt cfg folder st.count)
          (joinPath cfg.uploadDir (basename (targetAt cfg folder st.count)))])) ∧
      st'.created = st.created ++ [mkRecord meta
        ("/games/files/" ++ basename (targetAt cfg folder st.count) ++ "/index.html")] := by
  obtain ⟨wc, hwc⟩ := processManifest_ok cfg all st folder meta hf hm
  exact ⟨wc, _, hwc, rfl, rfl⟩

/-- Claim C2, witness: the corrected statement at a concrete folder. -/
theorem c2_witness :
    ∃ wc st', processManifest cfgT2 [] initState "mathgame" (Json.obj []) = .ok st' ∧
      st'.writes = initState.writes ++ (WriteOp.mkdir (targetAt cfgT2 "mathgame" initState.count) ::
        (wc ++ [WriteOp.rename (targetAt cfgT2 "mathgame" initState.count)
          (joinPath cfgT2.uploadDir (basename (targetAt cfgT2 "mathgame" initState.count)))])) ∧
      st'.created = initState.created ++ [mkRecord (Json.obj [])
        ("/games/files/" ++ basename (targetAt cfgT2 "mathgame" initState.count) ++ "/index.html")] :=
  c2_amended cfgT2 [] initState "mathgame" (Json.obj []) (fun _ => rfl) rfl

/-- Claim C3 (confirmed): a manifest entry whose bytes fail to parse as JSON
is silently skipped: importing `pre ++ bad :: post` creates exactly the
records of the valid manifests of `pre` and `post`, in encounter order, and
returns the normal success response; the malformed manifest is reflected
only in the lower created count. -/
theorem c3_isolation (cfg : Config) (pre post : List ZipEntry) (bad : ZipEntry)
    (hf : ∀ op, cfg.fsFails op = false)
    (hb : jsonParse bad.content = none)
    (hnn : (manifestScan (pre ++ post)).all (fun p => !isNullJson p.2) = true) :
    (bulkUpload cfg (some (pre ++ bad :: post))).1.created =
      expectedFrom cfg 0 (manifestScan (pre ++ post)) ∧
    (bulkUpload cfg (some (pre ++ bad :: post))).2 =
      Response.ok (expectedFrom cfg 0 (manifestScan (pre ++ post))).length
        ((expectedFrom cfg 0 (manifestScan (pre ++ post))).take 20) := by
  have hs : scanEntry bad = none := by
    unfold scanEntry
    cases hc : candidateFolder bad with
    | none => rfl
    | some f => rw [hb]
  have hms : manifestScan (pre ++ bad :: post) = manifestScan (pre ++ post) := by
    simp only [manifestScan, List.filterMap_append, List.filterMap_cons, hs]
  have := bulkUpload_char cfg (pre ++ bad :: post) hf (by rw [hms]; exact hnn)
  rw [hms] at this
  exact this

/-- Claim C3, witness: a truncated `broken/metadata.json` between two valid
sibling folders; both siblings still produce records. -/
theorem c3_witness :
    (bulkUpload cfgT2 (some ([⟨"g1/metadata.json", false, "\x7b\"title\":\"One\"\x7d"⟩] ++
        ⟨"broken/metadata.json", false, "\x7b\"title\":"⟩ ::
        [⟨"g2/metadata.json", false, "\x7b\"title\":\"Two\"\x7d"⟩]))).1.created =
      expectedFrom cfgT2 0 (manifestScan ([⟨"g1/metadata.json", false, "\x7b\"title\":\"One\"\x7d"⟩] ++
        [⟨"g2/metadata.json", false, "\x7b\"title\":\"Two\"\x7d"⟩])) :=
  (c3_isolation cfgT2 [⟨"g1/metadata.json", false, "\x7b\"title\":\"One\"\x7d"⟩]
    [⟨"g2/metadata.json", false, "\x7b\"title\":\"Two\"\x7d"⟩]
    ⟨"broken/metadata.json", false, "\x7b\"title\":"⟩
    (fun _ => rfl) (by rfl) (by rfl)).1

/-- Claim C4, counterexample: a root-level entry named exactly
`metadata.json` has final path segment `metadata.json` and valid JSON
content, yet it is not treated as a candidate manifest (the code requires
at least two path segments), so importing an archive containing only it
creates nothing. -/
theorem c4_counterexample :
    (splitSlash "metadata.json").getLastD "" = "metadata.json" ∧
    candidateFolder ⟨"metadata.json", false, "\x7b\x7d"⟩ = none ∧
    jsonParse "\x7b\x7d" = some (Json.obj []) ∧
    (bulkUpload cfgT2 (some [⟨"metadata.json", false, "\x7b\x7d"⟩])).2 = Response.ok 0 [] := by
  exact ⟨rfl, rfl, rfl, rfl⟩

/-- Claim C4 (corrected): a non-directory entry is a candidate manifest
exactly when its path has at least two slash-separated segments and the
final segment is exactly `metadata.json`; the folder identifier is the join
of the earlier segments; candidates are processed in encounter order with no
deduplication (a filterMap over the entry list), and with no write failures
the created records are exactly one per scanned manifest in that order. -/
theorem c4_amended :
    (∀ e : ZipEntry, candidateFolder e =
      (if e.isDirectory = false ∧ 2 ≤ (splitSlash e.entryName).length ∧
          (splitSlash e.entryName).getLastD "" = "metadata.json"
       then some (joinSlash (splitSlash e.entryName).dropLast) else none)) ∧
    (∀ l1 l2 : List ZipEntry, manifestScan (l1 ++ l2) = manifestScan l1 ++ manifestScan l2) ∧
    (∀ (cfg : Config) (entries : List ZipEntry), (∀ op, cfg.fsFails op = false) →
      (manifestScan entries).all (fun p => !isNullJson p.2) = true →
      (bulkUpload cfg (some entries)).1.created = expectedFrom cfg 0 (manifestScan entries)) := by
  refine ⟨?_, ?_, ?_⟩
  · intro e
    unfold candidateFolder
    by_cases hd : e.isDirectory
    · simp [hd]
    · by_cases hc : 2 ≤ (splitSlash e.entryName).length ∧
        (splitSlash e.entryName).getLastD "" = "metadata.json"
      · simp [hd, hc]
      · simp [hd, hc]
  · intro l1 l2
    simp [manifestScan, List.filterMap_append]
  · intro cfg entries hf hnn
    exact (bulkUpload_char cfg entries hf hnn).1

/-- Claim C4, witness: two entries with the same folder identifier produce
two records (no deduplication). -/
theorem c4_witness :
    (bulkUpload cfgT2 (some [⟨"dup/metadata.json", false, "\x7b\x7d"⟩,
        ⟨"dup/metadata.json", false, "\x7b\x7d"⟩])).1.created =
      expectedFrom cfgT2 0 (manifestScan [⟨"dup/metadata.json", false, "\x7b\x7d"⟩,
        ⟨"dup/metadata.json", false, "\x7b\x7d"⟩]) :=
  c4_amended.2.2 cfgT2 [⟨"dup/metadata.json", false, "\x7b\x7d"⟩,
    ⟨"dup/metadata.json", false, "\x7b\x7d"⟩] (fun _ => rfl) (by rfl)

/-- Claim C5 (confirmed): the catalog record built from a parsed manifest
fills each missing optional field with its documented default: title
`"Untitled"`, description and category the empty string, tags and quizzes
the empty sequence, lesson title and content the empty string. -/
theorem c5_defaults (meta : Json) (url : String) :
    (jsField meta "title" = none → (mkRecord meta url).title = Json.str "Untitled") ∧
    (jsField meta "description" = none → (mkRecord meta url).description = Json.str "") ∧
    (jsField meta "category" = none → (mkRecord meta url).category = Json.str "") ∧
    (jsField meta "tags" = none → (mkRecord meta url).tags = Json.arr []) ∧
    (jsField meta "quizzes" = none → (mkRecord meta url).quizzes = Json.arr []) ∧
    (jsField meta "lessonTitle" = none → (mkRecord meta url).lessonTitle = Json.str "") ∧
    (jsField meta "lessonContent" = none → (mkRecord meta url).lessonContent = Json.str "") := by
  refine ⟨?_, ?_, ?_, ?_, ?_, ?_, ?_⟩ <;>
    (intro h; simp [mkRecord, jsOrDefault, h])

/-- Claim C5, witness: the empty-object manifest gets every default. -/
theorem c5_witness :
    jsField (Json.obj []) "title" = none ∧
    (mkRecord (Json.obj []) "u").title = Json.str "Untitled" ∧
    (mkRecord (Json.obj []) "u").description = Json.str "" ∧
    (mkRecord (Json.obj []) "u").tags = Json.arr [] ∧
    (mkRecord (Json.obj []) "u").quizzes = Json.arr [] :=
  ⟨rfl, (c5_defaults (Json.obj []) "u").1 rfl, (c5_defaults (Json.obj []) "u").2.1 rfl,
   (c5_defaults (Json.obj []) "u").2.2.2.1 rfl, (c5_defaults (Json.obj []) "u").2.2.2.2.1 rfl⟩

/-- Claim C6 (confirmed): on a successful import the response is
`ok created.length (created.take 20)`, where the created list holds the
records in manifest encounter order; an archive-level parse failure yields
the error response with status 500. -/
theorem c6_response (cfg : Config) (entries : List ZipEntry)
    (hf : ∀ op, cfg.fsFails op = false)
    (hnn : (manifestScan entries).all (fun p => !isNullJson p.2) = true) :
    (bulkUpload cfg (some entries)).2 =
      Response.ok (bulkUpload cfg (some entries)).1.created.length
        ((bulkUpload cfg (some entries)).1.created.take 20) ∧
    (bulkUpload cfg (some entries)).1.created = expectedFrom cfg 0 (manifestScan entries) ∧
    (∀ c : Config, (bulkUpload c none).2 = Response.err 500 "Failed processing zip") := by
  obtain ⟨h1, h2⟩ := bulkUpload_char cfg entries hf hnn
  refine ⟨?_, h1, fun c => rfl⟩
  rw [h1, h2]

/-- Claim C6, witness: a one-folder archive, response evaluated. -/
theorem c6_witness :
    (bulkUpload cfgT2 (some [⟨"g/metadata.json", false, "\x7b\"title\":\"G\"\x7d"⟩])).2 =
      Response.ok (bulkUpload cfgT2 (some [⟨"g/metadata.json", false, "\x7b\"title\":\"G\"\x7d"⟩])).1.created.length
        ((bulkUpload cfgT2 (some [⟨"g/metadata.json", false, "\x7b\"title\":\"G\"\x7d"⟩])).1.created.take 20) :=
  (c6_response cfgT2 [⟨"g/metadata.json", false, "\x7b\"title\":\"G\"\x7d"⟩] (fun _ => rfl) (by rfl)).1

/-- Claim C7 (confirmed): an archive with zero valid manifests yields
`created = 0` with an empty preview, and no storage writes (no directory
creation, file write or rename) are performed. -/
theorem c7_no_writes (cfg : Config) (entries : List ZipEntry)
    (hscan : manifestScan entries = [])
    (hu : cfg.fsFails (WriteOp.unlink cfg.tmpPath) = false) :
    (bulkUpload cfg (some entries)).2 = Response.ok 0 [] ∧
    (bulkUpload cfg (some entries)).1.writes.filter (fun op => op.isStorage) = [] := by
  have hrun := runEntries_empty_scan cfg entries entries initState hscan
  simp only [bulkUpload]
  rw [hrun]
  simp only [doOp_ok cfg _ _ hu]
  constructor
  · rfl
  · rfl

/-- Claim C7, witness: an archive whose only manifest is malformed. -/
theorem c7_witness :
    (bulkUpload cfgT2 (some [⟨"x/metadata.json", false, "\x7b"⟩, ⟨"x/index.html", false, "<p>"⟩])).2 =
      Response.ok 0 [] :=
  (c7_no_writes cfgT2 [⟨"x/metadata.json", false, "\x7b"⟩, ⟨"x/index.html", false, "<p>"⟩]
    (by rfl) (by rfl)).1

/-- Claim C8 (confirmed): after a leaderboard submission the stored
leaderboard has at most 100 entries, is sorted in descending score order,
and entries with equal scores keep their pre-sort insertion order: the
entries of any score class form a prefix of the same score class of the
pushed list. -/
theorem leaderboard_invariant (lb : List LBEntry) (e : LBEntry) :
    (submitScore lb e).length ≤ 100 ∧
    (submitScore lb e).Pairwise scoreGe ∧
    ∀ s : Int, ∃ m, (submitScore lb e).filter (fun y => y.score == s) =
      ((lb ++ [e]).filter (fun y => y.score == s)).take m := by
  refine ⟨?_, ?_, ?_⟩
  · simp [submitScore]
  · exact List.Pairwise.sublist (List.take_sublist 100 _) (pairwise_sortDesc (lb ++ [e]))
  · intro s
    obtain ⟨m, hm⟩ := filter_take_isTakeOf (sortDesc (lb ++ [e])) 100 (fun y => y.score == s)
    exact ⟨m, by rw [submitScore, hm, filter_sortDesc]⟩

/-- Claim C9, counterexample: `"null"` parses as valid JSON, yet importing a
folder whose `metadata.json` is `null` creates no record at all (the import
aborts), refuting the claim that every folder whose manifest parses as valid
JSON yields a catalog record. -/
theorem c9_counterexample :
    jsonParse "null" = some Json.null ∧
    (bulkUpload cfgT2 (some [⟨"g/metadata.json", false, "null"⟩])).1.created = [] ∧
    (bulkUpload cfgT2 (some [⟨"g/metadata.json", false, "null"⟩])).2 =
      Response.err 500 "Failed processing zip" := by
  exact ⟨rfl, rfl, rfl⟩

/-- Claim C9 (corrected): the pipeline never checks for `index.html`: for a
candidate manifest parsing to any JSON value other than `null`, the record
is created even when no `index.html` entry exists anywhere in the archive
(the hypothesis `hnoindex` is not needed by the proof), and the asset
reference it stores ends in `/index.html` under the materialized folder. -/
theorem c9_amended (cfg : Config) (all : List ZipEntry) (st : ImportState) (e : ZipEntry)
    (f : String) (meta : Json)
    (hf : ∀ op, cfg.fsFails op = false)
    (hc : candidateFolder e = some f)
    (hp : jsonParse e.content = some meta)
    (hm : isNullJson meta = false)
    (hnoindex : ∀ en ∈ all, en.entryName ≠ f ++ "/index.html") :
    ∃ st', processEntry cfg all st e = .ok st' ∧
      st'.created = st.created ++ [mkRecord meta (serveUrlAt cfg f st.count)] ∧
      serveUrlAt cfg f st.count =
        ("/games/files/" ++ basename (targetAt cfg f st.count)) ++ "/index.html" := by
  have hs : scanEntry e = some (f, meta) := by
    unfold scanEntry
    rw [hc]
    simp only
    rw [hp]
  obtain ⟨wc, hwc⟩ := processManifest_ok cfg all st f meta hf hm
  refine ⟨{ created := st.created ++ [mkRecord meta (serveUrlAt cfg f st.count)],
            writes := st.writes ++ (WriteOp.mkdir (targetAt cfg f st.count) ::
              (wc ++ [WriteOp.rename (targetAt cfg f st.count)
                (joinPath cfg.uploadDir (basename (targetAt cfg f st.count)))])),
            count := st.count + 1 }, ?_, rfl, rfl⟩
  rw [processEntry_scan cfg all st e f meta hs, hwc]

/-- Claim C9, witness: a folder containing only `metadata.json` and no
`index.html` still yields a record pointing at `.../index.html`. -/
theorem c9_witness :
    ∃ st', processEntry cfgT2 [⟨"g/metadata.json", false, "\x7b\x7d"⟩] initState
        ⟨"g/metadata.json", false, "\x7b\x7d"⟩ = .ok st' ∧
      st'.created = initState.created ++ [mkRecord (Json.obj []) (serveUrlAt cfgT2 "g" initState.count)] ∧
      serveUrlAt cfgT2 "g" initState.count =
        ("/games/files/" ++ basename (targetAt cfgT2 "g" initState.count)) ++ "/index.html" :=
  c9_amended cfgT2 [⟨"g/metadata.json", false, "\x7b\x7d"⟩] initState
    ⟨"g/metadata.json", false, "\x7b\x7d"⟩ "g" (Json.obj []) (fun _ => rfl) rfl rfl rfl
    (by intro en hen
        rw [List.mem_singleton] at hen
        subst hen
        decide)

/-- Claim C10 (confirmed): the silent-skip policy covers only JSON syntax
errors: on an archive whose second folder's `metadata.json` is the JSON
literal `null`, parsing succeeds, the subsequent field read throws, and the
whole import answers the generic 500 failure; the record created for the earlier
folder remains, and no unlink of the uploaded temp archive is recorded. -/
theorem c10_null_aborts :
    jsonParse "null" = some Json.null ∧
    (bulkUpload cfgT2 (some archC10)).2 = Response.err 500 "Failed processing zip" ∧
    (bulkUpload cfgT2 (some archC10)).1.created.map Game.title = [Json.str "G"] ∧
    (bulkUpload cfgT2 (some archC10)).1.writes.filter
      (fun op => match op with | WriteOp.unlink _ => true | _ => false) = [] := by
  exact ⟨rfl, rfl, rfl, rfl⟩
